import Mathlib

/-!
Verification of the regulatory buildable-envelope and GFA-estimation core of a
3D land-use planning pipeline (`utils.py` of the repository, together with the
neighbour-triple serialisation step of `triple_dataset.py`).

The numeric aggregation code (`compute_part_gfa`, the per-programme body of
`compute_plot_gfa`, `set_plot_edge_setbacks`, the footprint filter of
`get_buildable_footprints`) is embedded over the exact rationals `ℚ`; Python
floats become rationals, `float('nan')` ("unknown") and the transient
`float('inf')` are represented explicitly, and a Python `NameError` is
represented by `Option.none`.  Geometric primitives are modelled
set-theoretically (for the setback-subtraction monotonicity claims, over
`Set (ℝ × ℝ)`) or restricted to axis-aligned rectangles with exact rational
coordinates (for the neighbour-relation claims), as documented at each
definition.
-/

/-- Python `min(iterable, default=None)` over a list of rationals, as used for
`cur_gpr = min(filter(lambda x: x is not None, gpr_list), default=None)` in
`compute_plot_gfa` (src/utils.py lines 1432, 1477). -/
def list_min : List ℚ → Option ℚ
  | [] => none
  | a :: rest =>
    match list_min rest with
    | none => some a
    | some m => some (min a m)

/-- Result of the GFA aggregation for one programme on one plot:
either a numeric value or the explicit "unknown" marker (`np.nan` in the
source, which is kept distinct from the number zero). -/
inductive GfaResult where
  | unknown : GfaResult
  | value : ℚ → GfaResult
deriving DecidableEq, Repr

/-- The storey loop of `compute_part_gfa` (src/utils.py lines 1351-1356):
`for storey in range(len(footprint_areas)): if storey < allowed_storeys: ...`.
The state is the pair `(part_gfa, storey_area)`, where the second component is
the last assigned `storey_area` (`none` while the Python variable is still
unassigned). -/
def part_gfa_loop (allowed_storeys plot_area site_coverage : ℚ) :
    List ℚ → ℕ → ℚ × Option ℚ → ℚ × Option ℚ
  | [], _, st => st
  | a :: rest, storey, st =>
    if (storey : ℚ) < allowed_storeys then
      let storey_area := if a / plot_area > site_coverage then plot_area * site_coverage else a
      part_gfa_loop allowed_storeys plot_area site_coverage rest (storey + 1)
        (st.1 + storey_area, some storey_area)
    else
      part_gfa_loop allowed_storeys plot_area site_coverage rest (storey + 1) st

/-- Embedding of `compute_part_gfa` (src/utils.py lines 1339-1361).
Returns `none` exactly when the Python code would raise a `NameError`
(the final `part_gfa += storey_area * (allowed_storeys - len(footprint_areas))`
referencing `storey_area` while it was never assigned in the loop). -/
def compute_part_gfa (allowed_storeys : ℚ) (footprint_areas : List ℚ)
    (plot_area site_coverage : ℚ) : Option ℚ :=
  let st := part_gfa_loop allowed_storeys plot_area site_coverage footprint_areas 0 (0, none)
  if allowed_storeys > (footprint_areas.length : ℚ) then
    match st.2 with
    | some storey_area =>
        some (st.1 + storey_area * (allowed_storeys - footprint_areas.length))
    | none => none
  else
    some st.1

/-- `cur_site_coverage = min(site_coverage_list, default=1.0)`
(src/utils.py line 1436). -/
def cur_site_coverage (site_coverage_list : List ℚ) : ℚ :=
  (list_min site_coverage_list).getD 1

/-- `min(filter(...), default=None)` over the `gpr_list` assembled from the
development-control-plan rows for the programme, the street-block-plan rows and
the plot's own masterplan ratio (src/utils.py lines 1427-1432 and 1472-1477);
`dropna`/`pd.notna` filtering is represented by the inputs already being the
lists of defined values (`plot_mp_gpr.toList` is empty when the ratio is
`NaN`). -/
def cur_gpr (dcp_gprs sbp_gprs : List ℚ) (plot_mp_gpr : Option ℚ) : Option ℚ :=
  list_min (dcp_gprs ++ sbp_gprs ++ plot_mp_gpr.toList)

/-- Embedding of the per-programme body of `compute_plot_gfa` for a plot with a
single part (src/utils.py lines 1421-1467, branch `len(cur_parts) == 1`).
`storeys_inf` is `np.any(np.isinf(programme_storeys))`, `part_storeys` is
`programme_storeys[0]`, `footprints` is the list `footprint_areas` of footprint
areas for the programme.  A `NaN` intermediate `programme_gfa` (no finite
storey data or no footprints) is turned into `float('inf')` when a plot ratio
exists, so that `min(programme_gfa, plot_area * cur_gpr)` is the ratio term;
without any ratio the `NaN` survives as the explicit unknown marker.
`Option.none` for the whole result marks a Python exception (unreachable here,
see theorem `c10_empty_footprints_unreachable`). -/
def compute_programme_gfa (storeys_inf : Bool) (part_storeys : ℚ)
    (footprints : List ℚ) (plot_area : ℚ) (site_coverage_list : List ℚ)
    (dcp_gprs sbp_gprs : List ℚ) (plot_mp_gpr : Option ℚ) : Option GfaResult :=
  if storeys_inf = false ∧ footprints ≠ [] then
    (compute_part_gfa part_storeys footprints plot_area
        (cur_site_coverage site_coverage_list)).map (fun programme_gfa =>
      match cur_gpr dcp_gprs sbp_gprs plot_mp_gpr with
      | some g => GfaResult.value (min programme_gfa (plot_area * g))
      | none => GfaResult.value programme_gfa)
  else
    some (match cur_gpr dcp_gprs sbp_gprs plot_mp_gpr with
      | some g => GfaResult.value (plot_area * g)
      | none => GfaResult.unknown)

/-- Embedding of the fallback branch of `compute_plot_gfa`
(src/utils.py lines 1469-1480): no footprint data or no storey data is
available for the plot, so the result is `plot_area * cur_gpr` when some plot
ratio is defined and the explicit unknown marker (`np.nan`) otherwise. -/
def compute_plot_gfa_no_data (plot_area : ℚ) (dcp_gprs sbp_gprs : List ℚ)
    (plot_mp_gpr : Option ℚ) : GfaResult :=
  match cur_gpr dcp_gprs sbp_gprs plot_mp_gpr with
  | some g => GfaResult.value (plot_area * g)
  | none => GfaResult.unknown

/-- The per-level filter of `get_buildable_footprints`
(src/utils.py lines 1184-1194): the footprint computed for a storey level is
appended to the programme's footprint list only `if remaining_geom.area > 0`;
this definition maps the list of per-level remaining areas to the list of
retained footprint areas (downstream, `compute_plot_gfa` consumes exactly the
areas of the retained footprints, and `unary_union` over a `MultiPolygon`
preserves its area). -/
def get_buildable_footprint_areas (level_areas : List ℚ) : List ℚ :=
  level_areas.filter (fun remaining_area => 0 < remaining_area)

/-- First-some combinator used to describe the final value of the Python
variable `storey_area` after a loop: the last assignment wins, the previous
value survives when no assignment happened. -/
def orElseO {α : Type} (o fallback : Option α) : Option α :=
  match o with
  | some x => some x
  | none => fallback

/-- The per-storey site-coverage cap inside the loop of `compute_part_gfa`
(src/utils.py lines 1353-1355):
`if (storey_area / plot_area) > site_coverage: storey_area = plot_area * site_coverage`. -/
def storey_cap (plot_area site_coverage a : ℚ) : ℚ :=
  if a / plot_area > site_coverage then plot_area * site_coverage else a

/-- Modelled from the claim/spec text (spec §4.5), for comparison with the
code: "for each storey below the allowed-storeys limit, add min(footprint
area, parcel area × site-coverage ceiling); for storeys beyond the last known
footprint but still below the allowed-storeys limit, repeat the last storey's
contribution". -/
def gfa_spec_storey_sum (allowed_storeys : ℕ) (footprint_areas : List ℚ)
    (plot_area site_coverage : ℚ) : ℚ :=
  ((List.range allowed_storeys).map (fun storey =>
    min (footprint_areas.getD (min storey (footprint_areas.length - 1)) 0)
      (plot_area * site_coverage))).sum

/-- Python `max(iterable)` over a list of rationals, as `None` when the list
is empty (pandas `Series.max()` on an empty selection yields `NaN`, which the
source then discards through `pd.notna`). -/
def list_max : List ℚ → Option ℚ
  | [] => none
  | a :: rest =>
    match list_max rest with
    | none => some a
    | some m => some (max a m)

/-- Per-plot attributes consumed by the per-programme body of
`set_plot_edge_setbacks` (src/utils.py lines 1060-1126): number of boundary
edges (`len(gfa_plots.at[i, 'edges'])`), the classified real boundary edge
index lists (`front_edges`, `side_edges`, `rear_edges`, `cat_1_edges`,
`cat_2_edges`, `cat_3_5_edges`, `partywall_edges`) and the party-wall flag. -/
structure PlotEdgesInfo where
  num_of_edges : ℕ
  front_edges : List ℕ
  side_edges : List ℕ
  rear_edges : List ℕ
  cat_1_edges : List ℕ
  cat_2_edges : List ℕ
  cat_3_5_edges : List ℕ
  partywall : Bool
  partywall_edges : List ℕ
deriving Repr

/-- One mutation `setback_list[edge] = max(setback_list[edge], v)`.
Python raises `IndexError` on an out-of-range index (the regulation data never
produces one); `List.set` leaves the list unchanged there, which coincides
with the source on every in-range index and keeps the length invariant. -/
def max_update (setback_list : List ℚ) (edge : ℕ) (v : ℚ) : List ℚ :=
  setback_list.set edge (max (setback_list.getD edge 0) v)

/-- The urban-design-guideline loop (src/utils.py lines 1099-1102):
`for edge, setback in setback_map.items(): setback_list[edge] = max(...)`. -/
def apply_udg_setbacks (setback_list : List ℚ) (udg_setbacks : List (ℕ × ℚ)) : List ℚ :=
  udg_setbacks.foldl (fun acc p => max_update acc p.1 p.2) setback_list

/-- One street-block-plan stage (src/utils.py lines 1104-1107):
`setback_list[edge] = max(setback_list[edge], edge_indices[0] if edge_indices
else setback_list[edge])` for every `edge` of the given class; `sbp_first` is
`edge_indices[0]`, the lowest-level setback of that class, `none` when the
class has no street-block-plan rows. -/
def apply_sbp_setback (setback_list : List ℚ) (edges : List ℕ)
    (sbp_first : Option ℚ) : List ℚ :=
  edges.foldl (fun acc edge =>
    acc.set edge (max (acc.getD edge 0) (sbp_first.getD (acc.getD edge 0)))) setback_list

/-- `cur_road_cats[cur_road_cats['category'] == category]['buffer'].max()`
(src/utils.py line 1111), `none` when no row matches. -/
def road_cat_max_buffer (road_cats : List (ℕ × ℚ)) (category : ℕ) : Option ℚ :=
  list_max ((road_cats.filter (fun p => p.1 == category)).map Prod.snd)

/-- One road-category stage (src/utils.py lines 1109-1114): when the maximal
buffer of the category is defined (`pd.notna(max_buffer)`), raise every edge
of the category to it. -/
def apply_road_cat (setback_list : List ℚ) (edges : List ℕ)
    (buf : Option ℚ) : List ℚ :=
  match buf with
  | some max_buffer => edges.foldl (fun acc edge => max_update acc edge max_buffer) setback_list
  | none => setback_list

/-- The party-wall edge selection (src/utils.py lines 1116-1121):
start from the plot's party-wall edges when the plot is flagged, add all side
edges for the attached programmes, and clear the set for the detached ones
(`list(set(...))` deduplicates; the order is irrelevant downstream because
every listed edge is set to the same value 0). -/
def partywall_edges_for_programme (plot : PlotEdgesInfo) (programme : String) : List ℕ :=
  let pw := if plot.partywall then plot.partywall_edges else []
  if programme ∈ ["Semi-DetachedHouse", "TerraceType1", "TerraceType2"] then
    (pw ++ plot.side_edges).dedup
  else if programme ∈ ["Bungalow", "GoodClassBungalow"] then []
  else pw

/-- Embedding of the per-programme body of `set_plot_edge_setbacks`
(src/utils.py lines 1095-1126): start from the programme's
development-control-plan setback broadcast to all edges, raise by
urban-design-guideline edge setbacks, then by the street-block-plan
front/side/rear setbacks, then by the road-category buffers, and finally set
each selected party-wall edge to 0. -/
def set_plot_edge_setbacks_prog (plot : PlotEdgesInfo) (programme : String)
    (dcp_setback : ℚ) (udg_setbacks : List (ℕ × ℚ))
    (sbp_front sbp_side sbp_rear : Option ℚ) (road_cats : List (ℕ × ℚ)) : List ℚ :=
  let l0 := List.replicate plot.num_of_edges dcp_setback
  let l1 := apply_udg_setbacks l0 udg_setbacks
  let l2 := apply_sbp_setback l1 plot.front_edges sbp_front
  let l3 := apply_sbp_setback l2 plot.side_edges sbp_side
  let l4 := apply_sbp_setback l3 plot.rear_edges sbp_rear
  let l5 := apply_road_cat l4 plot.cat_1_edges (road_cat_max_buffer road_cats 1)
  let l6 := apply_road_cat l5 plot.cat_2_edges (road_cat_max_buffer road_cats 2)
  let l7 := apply_road_cat l6 plot.cat_3_5_edges (road_cat_max_buffer road_cats 3)
  (partywall_edges_for_programme plot programme).foldl (fun acc edge => acc.set edge 0) l7

/-- The list of applicable setback sources for one edge, in stage order:
urban-design-guideline values targeting the edge, the street-block-plan
setback of each class the edge belongs to, and the road-category buffer of
each category whose edge list contains the edge. -/
def edge_setback_sources (plot : PlotEdgesInfo) (udg_setbacks : List (ℕ × ℚ))
    (sbp_front sbp_side sbp_rear : Option ℚ) (road_cats : List (ℕ × ℚ))
    (edge : ℕ) : List ℚ :=
  ((udg_setbacks.filter (fun p => p.1 == edge)).map Prod.snd)
    ++ (if edge ∈ plot.front_edges then sbp_front.toList else [])
    ++ (if edge ∈ plot.side_edges then sbp_side.toList else [])
    ++ (if edge ∈ plot.rear_edges then sbp_rear.toList else [])
    ++ (if edge ∈ plot.cat_1_edges then (road_cat_max_buffer road_cats 1).toList else [])
    ++ (if edge ∈ plot.cat_2_edges then (road_cat_max_buffer road_cats 2).toList else [])
    ++ (if edge ∈ plot.cat_3_5_edges then (road_cat_max_buffer road_cats 3).toList else [])

/-- Modelled from the claim text (spec §4.3/§8), for comparison with the code:
the resolved setback is the maximum over all applicable sources, except that
for attached-housing programmes every edge classified as party-wall is forced
to 0, and for detached programmes no edge is ever forced to 0. -/
def claim_resolved_setback (plot : PlotEdgesInfo) (programme : String)
    (dcp_setback : ℚ) (udg_setbacks : List (ℕ × ℚ))
    (sbp_front sbp_side sbp_rear : Option ℚ) (road_cats : List (ℕ × ℚ))
    (edge : ℕ) : ℚ :=
  if programme ∈ ["Semi-DetachedHouse", "TerraceType1", "TerraceType2"] ∧
      plot.partywall = true ∧ edge ∈ plot.partywall_edges then 0
  else (edge_setback_sources plot udg_setbacks sbp_front sbp_side sbp_rear
    road_cats edge).foldl max dcp_setback

/-- Pointwise order on optional setback sources: a source is raised in place,
it does not appear or disappear. -/
def OptionLE (a b : Option ℚ) : Prop :=
  match a, b with
  | none, none => True
  | some v, some w => v ≤ w
  | _, _ => False

/-- Front-edge selection of `classify_min_rect_edges` / `set_min_rect_edge_types`
(src/utils.py lines 794-803 and 243-250): among the road-intersection rows of
the plot's four minimum-bounding-rectangle edges — each row carrying the edge
index, its `intersection_area` and the edge `length` — the row that comes
first after sorting by (`intersection_area`, `length`) descending determines
the front edge; `none` when the plot has no road intersection at all. -/
def select_front_edge (inter : List (Fin 4 × ℚ × ℚ)) : Option (Fin 4) :=
  (inter.foldl (fun best row =>
    match best with
    | none => some row
    | some b =>
      if row.2.1 > b.2.1 ∨ (row.2.1 = b.2.1 ∧ row.2.2 > b.2.2) then some row
      else some b) none).map Prod.fst

/-- `front_edge_length`, filled with 0 for plots with no front edge
(src/utils.py lines 810-815 and 253-257). -/
def front_edge_length (lengths : Fin 4 → ℚ) (front : Option (Fin 4)) : ℚ :=
  match front with
  | some f => lengths f
  | none => 0

/-- Rear-edge selection (src/utils.py lines 817-820 and 259-263): the first
edge index that is not the front edge and whose length equals the front edge's
length (`rear_edge = not_front_edge & (length == front_edge_length)`,
then `groupby(...).first()`). -/
def select_rear_edge (lengths : Fin 4 → ℚ) (front : Option (Fin 4)) :
    Option (Fin 4) :=
  (List.finRange 4).find? (fun o =>
    decide (some o ≠ front ∧ lengths o = front_edge_length lengths front))

/-- Side-edge selection (src/utils.py lines 822-831 and 265-269):
`[e for e in {0,1,2,3} if e not in {front, rear}]`, set to the missing marker
(`np.nan`, modelled `none`) when the plot has no front edge. -/
def select_side_edges (front rear : Option (Fin 4)) : Option (List (Fin 4)) :=
  match front with
  | none => none
  | some _ =>
    some ((List.finRange 4).filter (fun e =>
      decide (some e ≠ front ∧ some e ≠ rear)))

/-- Per-plot embedding of `classify_min_rect_edges` (src/utils.py lines
780-833; `set_min_rect_edge_types`, lines 233-271, computes the same
front/rear/side assignment from the same intersection data): the classified
(front, rear, side) minimum-bounding-rectangle edge indices. -/
def classify_min_rect_edges (lengths : Fin 4 → ℚ)
    (inter : List (Fin 4 × ℚ × ℚ)) :
    Option (Fin 4) × Option (Fin 4) × Option (List (Fin 4)) :=
  let front := select_front_edge inter
  let rear := select_rear_edge lengths front
  (front, rear, select_side_edges front rear)

/-- An axis-aligned rectangle with exact rational coordinates; the fragment of
shapely geometry on which the neighbour-relation functions are modelled
(`x1 ≤ x2`, `y1 ≤ y2` for a well-formed plot). -/
structure Rect where
  x1 : ℚ
  y1 : ℚ
  x2 : ℚ
  y2 : ℚ
deriving DecidableEq, Repr

/-- Shapely `.area` of an axis-aligned rectangle. -/
def Rect.area (r : Rect) : ℚ :=
  (r.x2 - r.x1) * (r.y2 - r.y1)

/-- Shapely `buffer(d, cap_style=3)` of an axis-aligned rectangle, modelled as
expansion by `d` on every side.  (Shapely's default round join rounds the four
corners outward instead of squaring them; every concrete comparison used here
is checked to hold under either corner treatment.) -/
def Rect.buffer (r : Rect) (d : ℚ) : Rect :=
  ⟨r.x1 - d, r.y1 - d, r.x2 + d, r.y2 + d⟩

/-- Area of the intersection of two axis-aligned rectangles, as computed by
`gpd.overlay(..., how='intersection')` followed by `.area`. -/
def inter_area (a b : Rect) : ℚ :=
  max 0 (min a.x2 b.x2 - max a.x1 b.x1) * max 0 (min a.y2 b.y2 - max a.y1 b.y1)

/-- Embedding of `get_neighbor_links` (src/utils.py lines 95-111) over plots
given as (identifier, rectangle) pairs: every plot is buffered outward by 2,
intersected against every plot of the original set (itself included — the
overlay is of the buffered frame against the full original frame), and a link
row `(plots, context_plots)` is kept when the intersection area exceeds 1.
`find_neighbours` (lines 160-177) derives each plot's `neighbor_list` from the
same buffered-intersection test. -/
def get_neighbor_links (plots : List (ℕ × Rect)) : List (ℕ × ℕ) :=
  (plots.map (fun p =>
    plots.filterMap (fun q =>
      if 1 < inter_area (p.2.buffer 2) q.2 then some (p.1, q.1) else none))).flatten

/-- The self-link filter of `create_neighbor_triples`
(src/triple_dataset.py lines 997-1002): a neighbour triple is emitted only
when `plots != context_plots`. -/
def create_neighbor_triples (neighbor_links : List (ℕ × ℕ)) : List (ℕ × ℕ) :=
  neighbor_links.filter (fun p => decide (p.1 ≠ p.2))

/-- A planar point for the set-theoretic model of the setback-subtraction
geometry. -/
abbrev Pt : Type := ℝ × ℝ

/-- The one-sided buffer of one boundary edge,
`edge.buffer(-setback, single_sided=True, cap_style=3, join_style=3)`
(src/utils.py line 1148): for the straight segment from `a` to `b`, the solid
rectangle swept from the segment to its parallel offset at distance `setback`
on the inward side (direction `(dy, -dx)` for segment direction `(dx, dy)`;
square caps and joins add no rounding). -/
def edge_buffer (a b : Pt) (setback : ℝ) : Set Pt :=
  {x | ∃ t u : ℝ, 0 ≤ t ∧ t ≤ 1 ∧ 0 ≤ u ∧ u ≤ setback ∧
    x = (a.1 + t * (b.1 - a.1) + u * (b.2 - a.2),
         a.2 + t * (b.2 - a.2) - u * (b.1 - a.1))}

/-- Union of a list of point sets (`unary_union(edges_buffered)`,
src/utils.py line 1152; the empty `Polygon()` for an empty list). -/
def union_list (sets : List (Set Pt)) : Set Pt :=
  {x | ∃ s ∈ sets, x ∈ s}

/-- Embedding of `create_setback_area` (src/utils.py lines 1137-1155): buffer
each edge inward by its setback — skipping the edges whose setback is not
positive — union the buffered regions, and subtract the union from the plot
polygon. -/
def create_setback_area (edges : List (Pt × Pt)) (edge_setbacks : List ℝ)
    (plot_geom : Set Pt) : Set Pt :=
  let edges_buffered :=
    ((edges.zip edge_setbacks).filter (fun p => decide (0 < p.2))).map
      (fun p => edge_buffer p.1.1 p.1.2 p.2)
  plot_geom \ union_list edges_buffered

/-! ### Characterisation of `compute_part_gfa` -/

theorem orElseO_none_right {α : Type} (o : Option α) : orElseO o none = o := by
  cases o <;> rfl

theorem orElseO_getLast_cons {α : Type} (x : α) (L : List α) (o : Option α) :
    orElseO (x :: L).getLast? o = orElseO L.getLast? (some x) := by
  cases L with
  | nil => rfl
  | cons y ys =>
    rw [List.getLast?_cons_cons]
    rcases e : (y :: ys).getLast? with _ | z
    · exact absurd (List.getLast?_eq_none_iff.mp e) (by simp)
    · rfl

/-- The loop of `compute_part_gfa`, characterised: only the storeys with index
below `allowed_storeys` are processed (a prefix, of length `⌈allowed⌉₊ - k`
when the loop starts at index `k`), each contributing its capped area, and the
final `storey_area` is the last capped area of that prefix. -/
theorem part_gfa_loop_eq (al pa sc : ℚ) :
    ∀ (fas : List ℚ) (k : ℕ) (acc : ℚ) (last : Option ℚ),
      part_gfa_loop al pa sc fas k (acc, last) =
        (acc + ((fas.take (⌈al⌉₊ - k)).map (storey_cap pa sc)).sum,
          orElseO ((fas.take (⌈al⌉₊ - k)).map (storey_cap pa sc)).getLast? last) := by
  intro fas
  induction fas with
  | nil => intro k acc last; simp [part_gfa_loop, orElseO]
  | cons a rest ih =>
    intro k acc last
    by_cases h : (k : ℚ) < al
    · have hk : k < ⌈al⌉₊ := Nat.lt_ceil.mpr h
      have hsub : ⌈al⌉₊ - k = (⌈al⌉₊ - (k + 1)) + 1 := by omega
      rw [part_gfa_loop, if_pos h]
      show part_gfa_loop al pa sc rest (k + 1)
          (acc + storey_cap pa sc a, some (storey_cap pa sc a)) = _
      rw [ih (k + 1) (acc + storey_cap pa sc a) (some (storey_cap pa sc a))]
      rw [hsub, List.take_succ_cons, List.map_cons, List.sum_cons,
        orElseO_getLast_cons]
      simp only [storey_cap]
      rw [add_assoc]
    · have hk : ⌈al⌉₊ ≤ k := by
        by_contra hc
        exact h (Nat.lt_ceil.mp (Nat.lt_of_not_le hc))
      have h0 : ⌈al⌉₊ - k = 0 := by omega
      have h1 : ⌈al⌉₊ - (k + 1) = 0 := by omega
      rw [part_gfa_loop, if_neg h, ih (k + 1) acc last, h0, h1]
      simp [orElseO]

/-- `compute_part_gfa`, characterised in closed form: sum the capped areas of
the storeys below the limit, and when the limit exceeds the number of known
footprints, add the last capped area once per missing storey (`none` when
there is no last capped area to repeat). -/
theorem compute_part_gfa_eq (al pa sc : ℚ) (fas : List ℚ) :
    compute_part_gfa al fas pa sc =
      if (fas.length : ℚ) < al then
        (((fas.take ⌈al⌉₊).map (storey_cap pa sc)).getLast?).map
          (fun x =>
            ((fas.take ⌈al⌉₊).map (storey_cap pa sc)).sum + x * (al - fas.length))
      else some ((fas.take ⌈al⌉₊).map (storey_cap pa sc)).sum := by
  unfold compute_part_gfa
  rw [part_gfa_loop_eq al pa sc fas 0 0 none]
  simp only [Nat.sub_zero, zero_add, gt_iff_lt]
  by_cases h : (fas.length : ℚ) < al
  · rw [if_pos h, if_pos h]
    rcases e : ((fas.take ⌈al⌉₊).map (storey_cap pa sc)).getLast? with _ | x
    · simp [orElseO]
    · simp [orElseO]
  · rw [if_neg h, if_neg h]

theorem storey_cap_eq_min (pa sc a : ℚ) (hpa : 0 < pa) :
    storey_cap pa sc a = min a (pa * sc) := by
  unfold storey_cap
  by_cases h : sc < a / pa
  · rw [if_pos h, min_eq_right]
    have hh := (lt_div_iff₀ hpa).mp h
    nlinarith
  · rw [if_neg h, min_eq_left]
    have hh := (div_le_iff₀ hpa).mp (not_lt.mp h)
    nlinarith

theorem sum_map_range_getD (L : List ℚ) :
    ∀ n, n ≤ L.length →
      ((List.range n).map (fun s => L.getD s 0)).sum = (L.take n).sum := by
  induction L with
  | nil =>
    intro n hn
    have : n = 0 := by simpa using hn
    simp [this]
  | cons a rest ih =>
    intro n hn
    cases n with
    | zero => simp
    | succ m =>
      rw [List.range_succ_eq_map, List.map_cons, List.map_map, List.sum_cons,
        List.take_succ_cons, List.sum_cons]
      have hmap : (List.range m).map ((fun s => (a :: rest).getD s 0) ∘ Nat.succ) =
          (List.range m).map (fun s => rest.getD s 0) := by
        refine List.map_congr_left ?_
        intro s _
        simp [Function.comp, List.getD_cons_succ]
      rw [hmap, ih m (by simpa using Nat.succ_le_succ_iff.mp hn)]
      simp [List.getD_cons_zero]

/-- For a natural allowed-storeys limit, a positive plot area and a non-empty
footprint list, `compute_part_gfa` computes exactly the claim's formula:
capped storey areas summed, with the last storey's contribution repeated for
the storeys beyond the last known footprint. -/
theorem compute_part_gfa_natCast_eq_spec (n : ℕ) (fas : List ℚ) (pa sc : ℚ)
    (hpa : 0 < pa) (hne : fas ≠ []) :
    compute_part_gfa (n : ℚ) fas pa sc = some (gfa_spec_storey_sum n fas pa sc) := by
  have hlen : 0 < fas.length := List.length_pos.mpr hne
  have hcap : fas.map (storey_cap pa sc) = fas.map (fun a => min a (pa * sc)) :=
    List.map_congr_left (fun a _ => storey_cap_eq_min pa sc a hpa)
  have hterm : ∀ i, i < fas.length →
      min (fas.getD i 0) (pa * sc) = (fas.map (fun a => min a (pa * sc))).getD i 0 := by
    intro i hi
    have hi2 : i < (fas.map (fun a => min a (pa * sc))).length := by
      rw [List.length_map]; exact hi
    rw [List.getD_eq_getElem _ _ hi, List.getD_eq_getElem _ _ hi2, List.getElem_map]
  rw [compute_part_gfa_eq, Nat.ceil_natCast]
  by_cases h : fas.length < n
  · rw [if_pos (Nat.cast_lt.mpr h)]
    have htake : fas.take n = fas := List.take_of_length_le (le_of_lt h)
    rw [htake, hcap]
    set L := fas.map (fun a => min a (pa * sc)) with hL
    have hLne : L ≠ [] := by
      rw [hL]
      simp [hne]
    have hLlen : L.length = fas.length := by rw [hL, List.length_map]
    rw [List.getLast?_eq_getLast L hLne, Option.map_some']
    have hspec : gfa_spec_storey_sum n fas pa sc =
        L.sum + ((n : ℚ) - fas.length) * L.getLast hLne := by
      unfold gfa_spec_storey_sum
      have hrange : List.range n = List.range fas.length ++
          (List.range (n - fas.length)).map (fun x => fas.length + x) := by
        rw [← List.range_add]
        congr 1
        omega
      rw [hrange, List.map_append, List.sum_append]
      have hA : ((List.range fas.length).map (fun storey =>
          min (fas.getD (min storey (fas.length - 1)) 0) (pa * sc))).sum = L.sum := by
        have : (List.range fas.length).map (fun storey =>
            min (fas.getD (min storey (fas.length - 1)) 0) (pa * sc)) =
            (List.range fas.length).map (fun s => L.getD s 0) := by
          refine List.map_congr_left ?_
          intro s hs
          have hs2 : s < fas.length := List.mem_range.mp hs
          have : min s (fas.length - 1) = s := by omega
          rw [this, hterm s hs2, hL]
        rw [this, sum_map_range_getD L fas.length (le_of_eq hLlen.symm), ← hLlen,
          List.take_length]
      have hB : (((List.range (n - fas.length)).map (fun x => fas.length + x)).map
          (fun storey => min (fas.getD (min storey (fas.length - 1)) 0) (pa * sc))).sum =
          ((n : ℚ) - fas.length) * L.getLast hLne := by
        have hlast : L.getLast hLne = L.getD (fas.length - 1) 0 := by
          rw [List.getLast_eq_getElem L hLne,
            ← List.getD_eq_getElem L 0 (by omega : L.length - 1 < L.length), hLlen]
        have hconst : ((List.range (n - fas.length)).map (fun x => fas.length + x)).map
            (fun storey => min (fas.getD (min storey (fas.length - 1)) 0) (pa * sc)) =
            (List.range (n - fas.length)).map
              (Function.const ℕ (L.getD (fas.length - 1) 0)) := by
          rw [List.map_map]
          refine List.map_congr_left ?_
          intro x _
          have hmin : min (fas.length + x) (fas.length - 1) = fas.length - 1 := by omega
          simp only [Function.comp, Function.const, hmin]
          rw [hterm (fas.length - 1) (by omega), hL]
        rw [hconst, List.map_const, List.sum_replicate, List.length_range, hlast,
          nsmul_eq_mul, Nat.cast_sub (le_of_lt h)]
      rw [hA, hB]
    rw [hspec, mul_comm]
  · rw [if_neg (by rw [Nat.cast_lt]; omega)]
    have hn : n ≤ fas.length := by omega
    congr 1
    rw [List.map_take, hcap]
    set L := fas.map (fun a => min a (pa * sc)) with hL
    have hLlen : L.length = fas.length := by rw [hL, List.length_map]
    unfold gfa_spec_storey_sum
    have hcong : (List.range n).map (fun storey =>
        min (fas.getD (min storey (fas.length - 1)) 0) (pa * sc)) =
        (List.range n).map (fun s => L.getD s 0) := by
      refine List.map_congr_left ?_
      intro s hs
      have hs2 : s < n := List.mem_range.mp hs
      have : min s (fas.length - 1) = s := by omega
      rw [this, hterm s (by omega), hL]
    rw [hcong, sum_map_range_getD L n (by omega)]

/-! ### Helper lemmas about `list_min` and totality of the aggregation -/

theorem list_min_spec : ∀ (l : List ℚ) (m : ℚ), list_min l = some m →
    m ∈ l ∧ ∀ x ∈ l, m ≤ x := by
  intro l
  induction l with
  | nil => intro m hm; simp [list_min] at hm
  | cons a rest ih =>
    intro m hm
    unfold list_min at hm
    rcases e : list_min rest with _ | r
    · rw [e] at hm
      have hm2 : m = a := by
        simpa using hm.symm
      have hrest : rest = [] := by
        cases rest with
        | nil => rfl
        | cons b bs =>
          exfalso
          unfold list_min at e
          rcases e2 : list_min bs with _ | r2 <;> rw [e2] at e <;> simp at e
      subst hm2
      subst hrest
      simp
    · rw [e] at hm
      have hm2 : m = min a r := by simpa using hm.symm
      subst hm2
      obtain ⟨hmem, hle⟩ := ih r e
      constructor
      · rcases le_total a r with hh | hh
        · simp [min_eq_left hh]
        · right
          rw [min_eq_right hh]
          exact hmem
      · intro x hx
        rcases List.mem_cons.mp hx with hh | hh
        · rw [hh]; exact min_le_left a r
        · exact le_trans (min_le_right a r) (hle x hh)

theorem list_min_isSome_of_ne_nil (l : List ℚ) (h : l ≠ []) :
    ∃ m, list_min l = some m := by
  cases l with
  | nil => exact absurd rfl h
  | cons a rest =>
    unfold list_min
    rcases e : list_min rest with _ | r <;> simp

theorem list_min_nil : list_min [] = none := rfl

/-- With a non-empty footprint list, `compute_part_gfa` always terminates with
a value (the `storey_area`-unassigned `NameError` cannot happen). -/
theorem compute_part_gfa_isSome_of_ne_nil (al pa sc : ℚ) (fas : List ℚ)
    (hne : fas ≠ []) : (compute_part_gfa al fas pa sc).isSome := by
  rw [compute_part_gfa_eq]
  by_cases h : (fas.length : ℚ) < al
  · rw [if_pos h]
    have hlen : fas.length < ⌈al⌉₊ := Nat.lt_ceil.mpr h
    have htake : fas.take ⌈al⌉₊ = fas := List.take_of_length_le (by omega)
    have hne2 : (fas.take ⌈al⌉₊).map (storey_cap pa sc) ≠ [] := by
      rw [htake]
      simp [hne]
    rw [List.getLast?_eq_getLast _ hne2, Option.map_some']
    rfl
  · rw [if_neg h]
    rfl

/-- The empty-footprint `NameError` branch of `compute_part_gfa`. -/
theorem compute_part_gfa_nil_eq_none (al pa sc : ℚ) (h : 0 < al) :
    compute_part_gfa al [] pa sc = none := by
  unfold compute_part_gfa part_gfa_loop
  rw [if_pos (by exact_mod_cast h : ((List.length ([] : List ℚ)) : ℚ) < al)]

/-- The per-programme body of `compute_plot_gfa` never raises: its guard only
calls `compute_part_gfa` with a non-empty footprint list. -/
theorem compute_programme_gfa_isSome (si : Bool) (ps : ℚ) (fps : List ℚ)
    (pa : ℚ) (scs d s : List ℚ) (own : Option ℚ) :
    (compute_programme_gfa si ps fps pa scs d s own).isSome := by
  unfold compute_programme_gfa
  by_cases h : si = false ∧ fps ≠ []
  · rw [if_pos h]
    have := compute_part_gfa_isSome_of_ne_nil ps pa (cur_site_coverage scs) fps h.2
    rcases e : compute_part_gfa ps fps pa (cur_site_coverage scs) with _ | v
    · rw [e] at this; simp at this
    · simp [e]
  · rw [if_neg h]
    rfl

/-! ### Claim theorems: GFA aggregation (C1, C2, C4, C10) -/

/-- C1: for every plot with a single part, finite allowed storeys and a
non-empty footprint list, the programme GFA equals the sum over each storey
below the allowed-storeys limit of min(footprint area, plot area ×
site-coverage ceiling), with the last storey's contribution repeated for
storeys beyond the last known footprint but still below the limit, the total
capped at plot area × the minimum applicable plot ratio; in particular
footprint areas {800, 800, 600}, allowed storeys 3, site coverage 0.9 and plot
ratio 2.0 on a plot of area 1000 yield a final GFA of 2000. -/
theorem c1_single_part_programme_gfa :
    (∀ (n : ℕ) (f : ℚ) (fs : List ℚ) (pa : ℚ) (scs dcp_gprs sbp_gprs : List ℚ)
        (own : Option ℚ) (g : ℚ),
        0 < pa → cur_gpr dcp_gprs sbp_gprs own = some g →
        compute_programme_gfa false (n : ℚ) (f :: fs) pa scs dcp_gprs sbp_gprs own =
          some (GfaResult.value
            (min (gfa_spec_storey_sum n (f :: fs) pa (cur_site_coverage scs))
              (pa * g)))) ∧
      compute_programme_gfa false 3 [800, 800, 600] 1000 [9/10] [2] [] none =
        some (GfaResult.value 2000) := by
  constructor
  · intro n f fs pa scs d s own g hpa hg
    unfold compute_programme_gfa
    rw [if_pos ⟨rfl, List.cons_ne_nil f fs⟩,
      compute_part_gfa_natCast_eq_spec n (f :: fs) pa _ hpa (List.cons_ne_nil f fs),
      Option.map_some', hg]
  · norm_num [compute_programme_gfa, compute_part_gfa, part_gfa_loop,
      cur_site_coverage, cur_gpr, list_min]

/-- Witness for C1 at a concrete input with all hypotheses discharged. -/
theorem c1_single_part_programme_gfa_witness :
    compute_programme_gfa false ((2 : ℕ) : ℚ) [10] 100 [] [1] [] none =
      some (GfaResult.value
        (min (gfa_spec_storey_sum 2 [10] 100 (cur_site_coverage [])) (100 * 1))) :=
  c1_single_part_programme_gfa.1 2 10 [] 100 [] [1] [] none 1 (by norm_num)
    (by norm_num [cur_gpr, list_min])

/-- C2: a plot with no footprint or no storey data gets GFA
plot area × minimum applicable plot ratio whenever at least one ratio is
defined (e.g. area 1000 and ratio 2.0 give 2000), and the explicit unknown
marker — distinct from the number zero — when none is defined. -/
theorem c2_no_data_ratio_fallback :
    (∀ (pa : ℚ) (d s : List ℚ) (own : Option ℚ),
        d ++ s ++ own.toList ≠ [] →
        ∃ g, cur_gpr d s own = some g ∧ g ∈ d ++ s ++ own.toList ∧
          (∀ x ∈ d ++ s ++ own.toList, g ≤ x) ∧
          compute_plot_gfa_no_data pa d s own = GfaResult.value (pa * g)) ∧
      (∀ (pa : ℚ) (d s : List ℚ) (own : Option ℚ),
        d ++ s ++ own.toList = [] →
        compute_plot_gfa_no_data pa d s own = GfaResult.unknown ∧
          ∀ q : ℚ, GfaResult.unknown ≠ GfaResult.value q) ∧
      compute_plot_gfa_no_data 1000 [2] [] none = GfaResult.value 2000 := by
  refine ⟨?_, ?_, ?_⟩
  · intro pa d s own hne
    obtain ⟨g, hg⟩ := list_min_isSome_of_ne_nil _ hne
    obtain ⟨hmem, hle⟩ := list_min_spec _ g hg
    refine ⟨g, hg, hmem, hle, ?_⟩
    unfold compute_plot_gfa_no_data
    rw [show cur_gpr d s own = some g from hg]
  · intro pa d s own hnil
    constructor
    · unfold compute_plot_gfa_no_data
      rw [show cur_gpr d s own = none from by rw [cur_gpr, hnil, list_min_nil]]
    · intro q h
      exact GfaResult.noConfusion h
  · norm_num [compute_plot_gfa_no_data, cur_gpr, list_min]

/-- Witness for C2 at a concrete input with the hypotheses discharged. -/
theorem c2_no_data_ratio_fallback_witness :
    (∃ g, cur_gpr [3] [2] (some 4) = some g ∧ g ∈ [3] ++ [2] ++ [4] ∧
        (∀ x ∈ [3] ++ [2] ++ [4], g ≤ x) ∧
        compute_plot_gfa_no_data 10 [3] [2] (some 4) = GfaResult.value (10 * g)) ∧
      (compute_plot_gfa_no_data 10 [] [] none = GfaResult.unknown ∧
        ∀ q : ℚ, GfaResult.unknown ≠ GfaResult.value q) :=
  ⟨c2_no_data_ratio_fallback.1 10 [3] [2] (some 4) (by simp),
    c2_no_data_ratio_fallback.2.1 10 [] [] none (by simp)⟩

/-- C4 counterexample: a storey level whose setback subtraction yields a
non-positive area is *dropped* from the footprint list by
`get_buildable_footprints`, it is not kept as a zero-area storey.  With
per-level areas {5, 0}, 2 allowed storeys, plot area 100 and site coverage 1,
the pipeline computes 5 + 5 = 10 (the last retained footprint is repeated for
the missing storey), whereas treating the empty storey as contributing zero —
as the claim states — gives 5 + 0 = 5. -/
theorem c4_zero_storey_counterexample :
    compute_part_gfa 2 (get_buildable_footprint_areas [5, 0]) 100 1 = some 10 ∧
      compute_part_gfa 2 [5, 0] 100 1 = some 5 ∧ (10 : ℚ) ≠ 5 := by
  refine ⟨?_, ?_, by norm_num⟩ <;>
    norm_num [get_buildable_footprint_areas, compute_part_gfa, part_gfa_loop,
      List.filter]

/-- C4 (amended): a storey whose setback subtraction yields an empty or
non-positive area is omitted from the footprint list — treated as absent, not
as an error; later storeys shift down one position, and when the
allowed-storeys limit exceeds the number of retained footprints the last
retained footprint's area is repeated, so the GFA equals the aggregation over
the retained footprints only (and is still a defined value whenever at least
one footprint remains). -/
theorem c4_zero_storey_amended :
    ∀ (goods : List ℚ) (bad al pa sc : ℚ),
      (∀ g ∈ goods, 0 < g) → bad ≤ 0 →
      get_buildable_footprint_areas (goods ++ [bad]) = goods ∧
        compute_part_gfa al (get_buildable_footprint_areas (goods ++ [bad])) pa sc =
          compute_part_gfa al goods pa sc ∧
        (goods ≠ [] →
          (compute_part_gfa al (get_buildable_footprint_areas (goods ++ [bad])) pa sc).isSome) := by
  intro goods bad al pa sc hpos hbad
  have hfil : get_buildable_footprint_areas (goods ++ [bad]) = goods := by
    unfold get_buildable_footprint_areas
    rw [List.filter_append]
    have h1 : goods.filter (fun remaining_area => decide (0 < remaining_area)) = goods :=
      List.filter_eq_self.mpr (fun a ha => decide_eq_true (hpos a ha))
    have h2 : [bad].filter (fun remaining_area => decide (0 < remaining_area)) = [] := by
      simp [List.filter, decide_eq_false (not_lt.mpr hbad)]
    rw [h1, h2, List.append_nil]
  refine ⟨hfil, by rw [hfil], ?_⟩
  intro hne
  rw [hfil]
  exact compute_part_gfa_isSome_of_ne_nil al pa sc goods hne

/-- Witness for C4's amended theorem at a concrete input. -/
theorem c4_zero_storey_amended_witness :
    get_buildable_footprint_areas ([5, 3] ++ [0]) = [5, 3] ∧
      compute_part_gfa 4 (get_buildable_footprint_areas ([5, 3] ++ [0])) 100 1 =
        compute_part_gfa 4 [5, 3] 100 1 ∧
      ([5, 3] ≠ ([] : List ℚ) →
        (compute_part_gfa 4 (get_buildable_footprint_areas ([5, 3] ++ [0])) 100 1).isSome) :=
  c4_zero_storey_amended [5, 3] 0 4 100 1 (by norm_num) le_rfl

/-- C10: `compute_part_gfa` raises (the last-storey variable is never
assigned) exactly on an empty footprint list with a positive allowed-storeys
value; the guard in `compute_plot_gfa` only calls it with non-empty footprint
lists, so the per-programme aggregation never hits this branch. -/
theorem c10_empty_footprints_unreachable :
    (∀ (al pa sc : ℚ), 0 < al → compute_part_gfa al [] pa sc = none) ∧
      (∀ (al pa sc : ℚ) (fas : List ℚ), fas ≠ [] →
        (compute_part_gfa al fas pa sc).isSome) ∧
      (∀ (si : Bool) (ps pa : ℚ) (fps : List ℚ) (scs d s : List ℚ) (own : Option ℚ),
        (compute_programme_gfa si ps fps pa scs d s own).isSome) :=
  ⟨compute_part_gfa_nil_eq_none,
    fun al pa sc fas hne => compute_part_gfa_isSome_of_ne_nil al pa sc fas hne,
    fun si ps pa fps scs d s own => compute_programme_gfa_isSome si ps fps pa scs d s own⟩

/-- Witness for C10 at concrete inputs. -/
theorem c10_empty_footprints_unreachable_witness :
    compute_part_gfa 1 [] 100 1 = none ∧
      (compute_part_gfa 1 [7] 100 1).isSome ∧
      (compute_programme_gfa false 1 [7] 100 [] [] [] none).isSome :=
  ⟨c10_empty_footprints_unreachable.1 1 100 1 (by norm_num),
    c10_empty_footprints_unreachable.2.1 1 100 1 [7] (by simp),
    c10_empty_footprints_unreachable.2.2 false 1 100 [7] [] [] [] none⟩

/-! ### Claim theorem: monotonicity of the per-part aggregation (C5) -/

theorem sum_take_mono (l : List ℚ) (hnn : ∀ x ∈ l, 0 ≤ x) {m m2 : ℕ} (h : m ≤ m2) :
    (l.take m).sum ≤ (l.take m2).sum := by
  have hsplit : l.take m2 = l.take m ++ (l.drop m).take (m2 - m) := by
    rw [← List.take_add]
    congr 1
    omega
  rw [hsplit, List.sum_append]
  have h2 : 0 ≤ ((l.drop m).take (m2 - m)).sum :=
    List.sum_nonneg (fun x hx => hnn x (List.mem_of_mem_drop (List.mem_of_mem_take hx)))
  linarith

theorem storey_cap_nonneg (pa sc a : ℚ) (hpa : 0 < pa) (hsc : 0 ≤ sc) (ha : 0 ≤ a) :
    0 ≤ storey_cap pa sc a := by
  rw [storey_cap_eq_min pa sc a hpa]
  exact le_min ha (mul_nonneg hpa.le hsc)

theorem storey_cap_mono_sc (pa sc sc2 a : ℚ) (hpa : 0 < pa) (hsc : sc ≤ sc2) :
    storey_cap pa sc a ≤ storey_cap pa sc2 a := by
  rw [storey_cap_eq_min pa sc a hpa, storey_cap_eq_min pa sc2 a hpa]
  exact min_le_min le_rfl (mul_le_mul_of_nonneg_left hsc hpa.le)

/-- C5: for fixed footprint areas (non-negative, as polygon areas are) and a
fixed positive plot area, the per-part GFA of `compute_part_gfa` never
decreases when the allowed-storeys value increases, and never increases when
the site-coverage ceiling is reduced. -/
theorem c5_part_gfa_monotone :
    (∀ (al al2 pa sc : ℚ) (fas : List ℚ),
        0 < pa → 0 ≤ sc → (∀ a ∈ fas, 0 ≤ a) → fas ≠ [] → al ≤ al2 →
        (compute_part_gfa al fas pa sc).getD 0 ≤
          (compute_part_gfa al2 fas pa sc).getD 0) ∧
      (∀ (al pa sc sc2 : ℚ) (fas : List ℚ),
        0 < pa → fas ≠ [] → sc ≤ sc2 →
        (compute_part_gfa al fas pa sc).getD 0 ≤
          (compute_part_gfa al fas pa sc2).getD 0) := by
  constructor
  · intro al al2 pa sc fas hpa hsc hnn hne hal
    have hlen : 0 < fas.length := List.length_pos.mpr hne
    have hcapnn : ∀ x ∈ fas.map (storey_cap pa sc), 0 ≤ x := by
      intro x hx
      obtain ⟨a, ha, rfl⟩ := List.mem_map.mp hx
      exact storey_cap_nonneg pa sc a hpa hsc (hnn a ha)
    rw [compute_part_gfa_eq al pa sc fas, compute_part_gfa_eq al2 pa sc fas]
    rw [List.map_take, List.map_take]
    set L := fas.map (storey_cap pa sc) with hL
    have hLlen : L.length = fas.length := by rw [hL, List.length_map]
    have hLne : L ≠ [] := by rw [hL]; simp [hne]
    by_cases h1 : (fas.length : ℚ) < al
    · have h2 : (fas.length : ℚ) < al2 := lt_of_lt_of_le h1 hal
      have ht1 : L.take ⌈al⌉₊ = L :=
        List.take_of_length_le (by rw [hLlen]; exact (Nat.lt_ceil.mpr h1).le)
      have ht2 : L.take ⌈al2⌉₊ = L :=
        List.take_of_length_le (by rw [hLlen]; exact (Nat.lt_ceil.mpr h2).le)
      rw [if_pos h1, if_pos h2, ht1, ht2, List.getLast?_eq_getLast L hLne]
      simp only [Option.map_some', Option.getD_some]
      have hlast : 0 ≤ L.getLast hLne := hcapnn _ (List.getLast_mem hLne)
      have hmul := mul_le_mul_of_nonneg_left
        (sub_le_sub_right hal (fas.length : ℚ)) hlast
      linarith
    · by_cases h2 : (fas.length : ℚ) < al2
      · have ht2 : L.take ⌈al2⌉₊ = L :=
          List.take_of_length_le (by rw [hLlen]; exact (Nat.lt_ceil.mpr h2).le)
        rw [if_neg h1, if_pos h2, ht2, List.getLast?_eq_getLast L hLne,
          Option.map_some']
        simp only [Option.getD_some]
        have hlast : 0 ≤ L.getLast hLne := hcapnn _ (List.getLast_mem hLne)
        have hsum : (L.take ⌈al⌉₊).sum ≤ L.sum := by
          have := sum_take_mono L hcapnn (le_refl L.length)
          calc (L.take ⌈al⌉₊).sum ≤ (L.take L.length).sum :=
                sum_take_mono L hcapnn (Nat.le_of_lt_succ (by
                  have : ⌈al⌉₊ ≤ L.length := by
                    rw [hLlen]
                    by_contra hc
                    exact h1 (Nat.lt_ceil.mp (Nat.lt_of_not_le hc))
                  omega))
            _ = L.sum := by rw [List.take_length]
        have hterm : 0 ≤ L.getLast hLne * (al2 - (fas.length : ℚ)) :=
          mul_nonneg hlast (by linarith)
        linarith
      · rw [if_neg h1, if_neg h2]
        simp only [Option.getD_some]
        exact sum_take_mono L hcapnn (Nat.ceil_mono hal)
  · intro al pa sc sc2 fas hpa hne hsc
    have hlen : 0 < fas.length := List.length_pos.mpr hne
    rw [compute_part_gfa_eq al pa sc fas, compute_part_gfa_eq al pa sc2 fas]
    have hsum : ∀ k : ℕ, ((fas.take k).map (storey_cap pa sc)).sum ≤
        ((fas.take k).map (storey_cap pa sc2)).sum := by
      intro k
      exact List.sum_le_sum (fun a _ => storey_cap_mono_sc pa sc sc2 a hpa hsc)
    by_cases h1 : (fas.length : ℚ) < al
    · have htake : fas.take ⌈al⌉₊ = fas :=
        List.take_of_length_le (Nat.lt_ceil.mpr h1).le
      rw [if_pos h1, if_pos h1, htake]
      have hne2 : fas.map (storey_cap pa sc) ≠ [] := by simp [hne]
      have hne3 : fas.map (storey_cap pa sc2) ≠ [] := by simp [hne]
      rw [List.getLast?_eq_getLast _ hne2, List.getLast?_eq_getLast _ hne3,
        Option.map_some', Option.map_some']
      simp only [Option.getD_some]
      have hlast : (fas.map (storey_cap pa sc)).getLast hne2 ≤
          (fas.map (storey_cap pa sc2)).getLast hne3 := by
        rw [List.getLast_map _ _ hne2, List.getLast_map _ _ hne3]
        exact storey_cap_mono_sc pa sc sc2 _ hpa hsc
      have hsum2 := hsum ⌈al⌉₊
      rw [htake] at hsum2
      have hfac : (0 : ℚ) ≤ al - (fas.length : ℚ) := by linarith
      have := mul_le_mul_of_nonneg_right hlast hfac
      linarith
    · rw [if_neg h1, if_neg h1]
      simp only [Option.getD_some]
      exact hsum ⌈al⌉₊

/-- Witness for C5 at concrete inputs with the hypotheses discharged. -/
theorem c5_part_gfa_monotone_witness :
    (compute_part_gfa 2 [10, 10] 100 1 |>.getD 0) ≤
        (compute_part_gfa 5 [10, 10] 100 1 |>.getD 0) ∧
      (compute_part_gfa 2 [10, 10] 100 (1/2) |>.getD 0) ≤
        (compute_part_gfa 2 [10, 10] 100 1 |>.getD 0) :=
  ⟨c5_part_gfa_monotone.1 2 5 100 1 [10, 10] (by norm_num) (by norm_num)
      (by intro a ha; fin_cases ha <;> norm_num) (by simp)
      (by norm_num),
    c5_part_gfa_monotone.2 2 100 (1/2) 1 [10, 10] (by norm_num) (by simp)
      (by norm_num)⟩

/-! ### Setback-resolution stage lemmas (towards C3 and C9) -/

theorem foldl_length_invariant {α : Type} (g : List ℚ → α → List ℚ)
    (hg : ∀ l a, (g l a).length = l.length) :
    ∀ (xs : List α) (l : List ℚ), (xs.foldl g l).length = l.length := by
  intro xs
  induction xs with
  | nil => intro l; rfl
  | cons x rest ih =>
    intro l
    rw [List.foldl_cons, ih (g l x), hg l x]

theorem length_max_update (l : List ℚ) (e : ℕ) (v : ℚ) :
    (max_update l e v).length = l.length :=
  List.length_set l e _

theorem length_apply_udg (l : List ℚ) (udg : List (ℕ × ℚ)) :
    (apply_udg_setbacks l udg).length = l.length :=
  foldl_length_invariant (fun acc (p : ℕ × ℚ) => max_update acc p.1 p.2)
    (fun l p => length_max_update l p.1 p.2) udg l

theorem length_apply_sbp (l : List ℚ) (edges : List ℕ) (sb : Option ℚ) :
    (apply_sbp_setback l edges sb).length = l.length :=
  foldl_length_invariant
    (fun acc (edge : ℕ) => acc.set edge (max (acc.getD edge 0) (sb.getD (acc.getD edge 0))))
    (fun l e => List.length_set l e _) edges l

theorem length_apply_road (l : List ℚ) (edges : List ℕ) (buf : Option ℚ) :
    (apply_road_cat l edges buf).length = l.length := by
  cases buf with
  | none => rfl
  | some b =>
    exact foldl_length_invariant (fun acc (edge : ℕ) => max_update acc edge b)
      (fun l e => length_max_update l e b) edges l

theorem length_set_zero_fold (pw : List ℕ) (l : List ℚ) :
    ((pw.foldl (fun acc edge => acc.set edge 0) l)).length = l.length :=
  foldl_length_invariant (fun acc (edge : ℕ) => acc.set edge 0)
    (fun l e => List.length_set l e 0) pw l

theorem getD_set_ne (l : List ℚ) {i e : ℕ} (h : i ≠ e) (v : ℚ) :
    (l.set i v).getD e 0 = l.getD e 0 := by
  rw [List.getD_eq_getElem?_getD, List.getD_eq_getElem?_getD, List.getElem?_set_ne h]

theorem getD_set_self (l : List ℚ) {e : ℕ} (h : e < l.length) (v : ℚ) :
    (l.set e v).getD e 0 = v := by
  rw [List.getD_eq_getElem?_getD, List.getElem?_set_self h]
  rfl

theorem getD_set_getD (l : List ℚ) (i e : ℕ) :
    (l.set i (l.getD i 0)).getD e 0 = l.getD e 0 := by
  by_cases hie : i = e
  · subst hie
    by_cases hl : i < l.length
    · rw [getD_set_self l hl]
    · rw [List.set_eq_of_length_le (le_of_not_lt hl)]
  · rw [getD_set_ne l hie]

theorem getD_max_update_self (l : List ℚ) {e : ℕ} (h : e < l.length) (v : ℚ) :
    (max_update l e v).getD e 0 = max (l.getD e 0) v :=
  getD_set_self l h _

theorem getD_max_update_ne (l : List ℚ) {i e : ℕ} (h : i ≠ e) (v : ℚ) :
    (max_update l i v).getD e 0 = l.getD e 0 :=
  getD_set_ne l h _

theorem getD_apply_udg : ∀ (udg : List (ℕ × ℚ)) (l : List ℚ) {e : ℕ},
    e < l.length →
    (apply_udg_setbacks l udg).getD e 0 =
      ((udg.filter (fun p => p.1 == e)).map Prod.snd).foldl max (l.getD e 0) := by
  intro udg
  induction udg with
  | nil => intro l e he; rfl
  | cons p rest ih =>
    intro l e he
    have step : apply_udg_setbacks l (p :: rest) =
        apply_udg_setbacks (max_update l p.1 p.2) rest := rfl
    have hlen : e < (max_update l p.1 p.2).length := by
      rw [length_max_update]; exact he
    rw [step, ih _ hlen]
    by_cases hpe : p.1 = e
    · have hfil : (p :: rest).filter (fun q => q.1 == e) =
          p :: rest.filter (fun q => q.1 == e) := by
        simp [List.filter_cons, hpe]
      rw [hfil, List.map_cons, List.foldl_cons]
      have : (max_update l p.1 p.2).getD e 0 = max (l.getD e 0) p.2 := by
        subst hpe
        exact getD_max_update_self l he p.2
      rw [this]
    · have hfil : (p :: rest).filter (fun q => q.1 == e) =
          rest.filter (fun q => q.1 == e) := by
        simp [List.filter_cons, hpe]
      rw [hfil, getD_max_update_ne l hpe p.2]

theorem getD_fold_max_update : ∀ (edges : List ℕ) (l : List ℚ) (v : ℚ) {e : ℕ},
    e < l.length →
    ((edges.foldl (fun acc edge => max_update acc edge v) l)).getD e 0 =
      if e ∈ edges then max (l.getD e 0) v else l.getD e 0 := by
  intro edges
  induction edges with
  | nil => intro l v e he; simp
  | cons e0 rest ih =>
    intro l v e he
    have step : (e0 :: rest).foldl (fun acc edge => max_update acc edge v) l =
        rest.foldl (fun acc edge => max_update acc edge v) (max_update l e0 v) := rfl
    have hlen : e < (max_update l e0 v).length := by
      rw [length_max_update]; exact he
    rw [step, ih _ v hlen]
    by_cases he0 : e = e0
    · subst he0
      rw [getD_max_update_self l he]
      by_cases hm : e ∈ rest
      · simp [hm, max_assoc]
      · simp [hm]
    · rw [getD_max_update_ne l (fun h => he0 h.symm) v]
      by_cases hm : e ∈ rest
      · simp [hm, he0]
      · simp [hm, he0]

theorem apply_sbp_none_getD : ∀ (edges : List ℕ) (l : List ℚ) (e : ℕ),
    (apply_sbp_setback l edges none).getD e 0 = l.getD e 0 := by
  intro edges
  induction edges with
  | nil => intro l e; rfl
  | cons e0 rest ih =>
    intro l e
    have step : apply_sbp_setback l (e0 :: rest) none =
        apply_sbp_setback (l.set e0 (max (l.getD e0 0) (l.getD e0 0))) rest none := rfl
    rw [step, ih]
    rw [max_self]
    exact getD_set_getD l e0 e

theorem apply_sbp_some_eq (l : List ℚ) (edges : List ℕ) (v : ℚ) :
    apply_sbp_setback l edges (some v) =
      edges.foldl (fun acc edge => max_update acc edge v) l := rfl

theorem getD_apply_sbp (edges : List ℕ) (l : List ℚ) (sb : Option ℚ) {e : ℕ}
    (he : e < l.length) :
    (apply_sbp_setback l edges sb).getD e 0 =
      (if e ∈ edges then sb.toList else []).foldl max (l.getD e 0) := by
  cases sb with
  | none =>
    rw [apply_sbp_none_getD]
    by_cases hm : e ∈ edges <;> simp [hm]
  | some v =>
    rw [apply_sbp_some_eq, getD_fold_max_update edges l v he]
    by_cases hm : e ∈ edges <;> simp [hm]

theorem getD_apply_road (edges : List ℕ) (l : List ℚ) (buf : Option ℚ) {e : ℕ}
    (he : e < l.length) :
    (apply_road_cat l edges buf).getD e 0 =
      (if e ∈ edges then buf.toList else []).foldl max (l.getD e 0) := by
  cases buf with
  | none =>
    show l.getD e 0 = _
    by_cases hm : e ∈ edges <;> simp [hm]
  | some b =>
    show ((edges.foldl (fun acc edge => max_update acc edge b) l)).getD e 0 = _
    rw [getD_fold_max_update edges l b he]
    by_cases hm : e ∈ edges <;> simp [hm]

theorem getD_set_zero_fold : ∀ (pw : List ℕ) (l : List ℚ) {e : ℕ}, e < l.length →
    ((pw.foldl (fun acc edge => acc.set edge 0) l)).getD e 0 =
      if e ∈ pw then 0 else l.getD e 0 := by
  intro pw
  induction pw with
  | nil => intro l e he; simp
  | cons e0 rest ih =>
    intro l e he
    have step : (e0 :: rest).foldl (fun acc edge => acc.set edge 0) l =
        rest.foldl (fun acc edge => acc.set edge 0) (l.set e0 0) := rfl
    have hlen : e < (l.set e0 0).length := by rw [List.length_set]; exact he
    rw [step, ih _ hlen]
    by_cases he0 : e = e0
    · subst he0
      rw [if_pos (List.mem_cons.mpr (Or.inl rfl))]
      by_cases hm : e ∈ rest
      · rw [if_pos hm]
      · rw [if_neg hm, getD_set_self l he]
    · rw [getD_set_ne l (fun h => he0 h.symm) 0]
      by_cases hm : e ∈ rest
      · simp [hm, he0]
      · simp [hm, he0]

/-- Per-edge closed form of the per-programme body of
`set_plot_edge_setbacks`: on an in-range edge, the stored setback is 0 when
the edge is in the programme's party-wall selection, and otherwise the maximum
of the development-control-plan base value and all applicable sources. -/
theorem set_plot_edge_setbacks_prog_getD (plot : PlotEdgesInfo) (programme : String)
    (b : ℚ) (udg : List (ℕ × ℚ)) (sf ss sr : Option ℚ) (rc : List (ℕ × ℚ))
    {e : ℕ} (he : e < plot.num_of_edges) :
    (set_plot_edge_setbacks_prog plot programme b udg sf ss sr rc).getD e 0 =
      if e ∈ partywall_edges_for_programme plot programme then 0
      else (edge_setback_sources plot udg sf ss sr rc e).foldl max b := by
  set l0 := List.replicate plot.num_of_edges b with hl0
  set l1 := apply_udg_setbacks l0 udg with hl1
  set l2 := apply_sbp_setback l1 plot.front_edges sf with hl2
  set l3 := apply_sbp_setback l2 plot.side_edges ss with hl3
  set l4 := apply_sbp_setback l3 plot.rear_edges sr with hl4
  set l5 := apply_road_cat l4 plot.cat_1_edges (road_cat_max_buffer rc 1) with hl5
  set l6 := apply_road_cat l5 plot.cat_2_edges (road_cat_max_buffer rc 2) with hl6
  set l7 := apply_road_cat l6 plot.cat_3_5_edges (road_cat_max_buffer rc 3) with hl7
  have L0 : l0.length = plot.num_of_edges := by rw [hl0, List.length_replicate]
  have L1 : l1.length = plot.num_of_edges := by rw [hl1, length_apply_udg, L0]
  have L2 : l2.length = plot.num_of_edges := by rw [hl2, length_apply_sbp, L1]
  have L3 : l3.length = plot.num_of_edges := by rw [hl3, length_apply_sbp, L2]
  have L4 : l4.length = plot.num_of_edges := by rw [hl4, length_apply_sbp, L3]
  have L5 : l5.length = plot.num_of_edges := by rw [hl5, length_apply_road, L4]
  have L6 : l6.length = plot.num_of_edges := by rw [hl6, length_apply_road, L5]
  have L7 : l7.length = plot.num_of_edges := by rw [hl7, length_apply_road, L6]
  show ((partywall_edges_for_programme plot programme).foldl
      (fun acc edge => acc.set edge 0) l7).getD e 0 = _
  rw [getD_set_zero_fold (partywall_edges_for_programme plot programme) l7
    (by rw [L7]; exact he)]
  by_cases hm : e ∈ partywall_edges_for_programme plot programme
  · rw [if_pos hm, if_pos hm]
  · rw [if_neg hm, if_neg hm]
    have E0 : l0.getD e 0 = b := by
      rw [hl0, List.getD_eq_getElem?_getD, List.getElem?_replicate, if_pos he]
      rfl
    have E1 : l1.getD e 0 =
        ((udg.filter (fun p => p.1 == e)).map Prod.snd).foldl max b := by
      rw [hl1, getD_apply_udg udg l0 (by rw [L0]; exact he), E0]
    have E2 : l2.getD e 0 =
        (if e ∈ plot.front_edges then sf.toList else []).foldl max (l1.getD e 0) := by
      rw [hl2, getD_apply_sbp plot.front_edges l1 sf (by rw [L1]; exact he)]
    have E3 : l3.getD e 0 =
        (if e ∈ plot.side_edges then ss.toList else []).foldl max (l2.getD e 0) := by
      rw [hl3, getD_apply_sbp plot.side_edges l2 ss (by rw [L2]; exact he)]
    have E4 : l4.getD e 0 =
        (if e ∈ plot.rear_edges then sr.toList else []).foldl max (l3.getD e 0) := by
      rw [hl4, getD_apply_sbp plot.rear_edges l3 sr (by rw [L3]; exact he)]
    have E5 : l5.getD e 0 =
        (if e ∈ plot.cat_1_edges then (road_cat_max_buffer rc 1).toList
          else []).foldl max (l4.getD e 0) := by
      rw [hl5, getD_apply_road plot.cat_1_edges l4 _ (by rw [L4]; exact he)]
    have E6 : l6.getD e 0 =
        (if e ∈ plot.cat_2_edges then (road_cat_max_buffer rc 2).toList
          else []).foldl max (l5.getD e 0) := by
      rw [hl6, getD_apply_road plot.cat_2_edges l5 _ (by rw [L5]; exact he)]
    have E7 : l7.getD e 0 =
        (if e ∈ plot.cat_3_5_edges then (road_cat_max_buffer rc 3).toList
          else []).foldl max (l6.getD e 0) := by
      rw [hl7, getD_apply_road plot.cat_3_5_edges l6 _ (by rw [L6]; exact he)]
    rw [E7, E6, E5, E4, E3, E2, E1]
    simp only [edge_setback_sources, List.foldl_append]

/-! ### Monotonicity helpers for the setback sources -/

theorem foldl_max_mono : ∀ {xs ys : List ℚ}, List.Forall₂ (· ≤ ·) xs ys →
    ∀ {a b : ℚ}, a ≤ b → xs.foldl max a ≤ ys.foldl max b := by
  intro xs ys h
  induction h with
  | nil => intro a b hab; exact hab
  | cons hxy _ ih => intro a b hab; exact ih (max_le_max hab hxy)

theorem forall2_le_append {xs ys xs2 ys2 : List ℚ}
    (h1 : List.Forall₂ (· ≤ ·) xs xs2) (h2 : List.Forall₂ (· ≤ ·) ys ys2) :
    List.Forall₂ (· ≤ ·) (xs ++ ys) (xs2 ++ ys2) := by
  induction h1 with
  | nil => exact h2
  | cons h _ ih => exact List.Forall₂.cons h ih

theorem forall2_filter_map_snd (k : ℕ) :
    ∀ {ps qs : List (ℕ × ℚ)},
      List.Forall₂ (fun p q => p.1 = q.1 ∧ p.2 ≤ q.2) ps qs →
      List.Forall₂ (· ≤ ·) ((ps.filter (fun p => p.1 == k)).map Prod.snd)
        ((qs.filter (fun q => q.1 == k)).map Prod.snd) := by
  intro ps qs h
  induction h with
  | nil => exact List.Forall₂.nil
  | @cons p q ps2 qs2 hpq _ ih =>
    obtain ⟨h1, h2⟩ := hpq
    rw [List.filter_cons, List.filter_cons]
    by_cases hk : p.1 = k
    · rw [if_pos (by simp [hk]), if_pos (by simp [h1 ▸ hk]), List.map_cons,
        List.map_cons]
      exact List.Forall₂.cons h2 ih
    · rw [if_neg (by simp [hk]), if_neg (by simp [h1 ▸ hk])]
      exact ih

theorem optionLE_toList {a b : Option ℚ} (h : OptionLE a b) :
    List.Forall₂ (· ≤ ·) a.toList b.toList := by
  cases a <;> cases b <;> simp [OptionLE] at h ⊢
  · exact h

theorem list_max_optionLE : ∀ {xs ys : List ℚ}, List.Forall₂ (· ≤ ·) xs ys →
    OptionLE (list_max xs) (list_max ys) := by
  intro xs ys h
  induction h with
  | nil => trivial
  | @cons x y xs2 ys2 hxy _ ih =>
    show OptionLE (list_max (x :: xs2)) (list_max (y :: ys2))
    unfold list_max
    rcases e1 : list_max xs2 with _ | mx <;> rcases e2 : list_max ys2 with _ | my <;>
      rw [e1, e2] at ih
    · exact hxy
    · exact ih.elim
    · exact ih.elim
    · exact max_le_max hxy ih

theorem road_cat_max_buffer_mono (c : ℕ) {rc rc2 : List (ℕ × ℚ)}
    (h : List.Forall₂ (fun p q => p.1 = q.1 ∧ p.2 ≤ q.2) rc rc2) :
    OptionLE (road_cat_max_buffer rc c) (road_cat_max_buffer rc2 c) :=
  list_max_optionLE (forall2_filter_map_snd c h)

theorem cond_toList_mono {a b : Option ℚ} (cond : Prop) [Decidable cond]
    (h : OptionLE a b) :
    List.Forall₂ (· ≤ ·) (if cond then a.toList else [])
      (if cond then b.toList else []) := by
  by_cases hc : cond
  · rw [if_pos hc, if_pos hc]; exact optionLE_toList h
  · rw [if_neg hc, if_neg hc]; exact List.Forall₂.nil

theorem edge_setback_sources_mono (plot : PlotEdgesInfo)
    {udg udg2 : List (ℕ × ℚ)} {sf sf2 ss ss2 sr sr2 : Option ℚ}
    {rc rc2 : List (ℕ × ℚ)} (e : ℕ)
    (hudg : List.Forall₂ (fun p q => p.1 = q.1 ∧ p.2 ≤ q.2) udg udg2)
    (hsf : OptionLE sf sf2) (hss : OptionLE ss ss2) (hsr : OptionLE sr sr2)
    (hrc : List.Forall₂ (fun p q => p.1 = q.1 ∧ p.2 ≤ q.2) rc rc2) :
    List.Forall₂ (· ≤ ·) (edge_setback_sources plot udg sf ss sr rc e)
      (edge_setback_sources plot udg2 sf2 ss2 sr2 rc2 e) := by
  unfold edge_setback_sources
  refine forall2_le_append (forall2_le_append (forall2_le_append (forall2_le_append
    (forall2_le_append (forall2_le_append (forall2_filter_map_snd e hudg)
      (cond_toList_mono _ hsf)) (cond_toList_mono _ hss))
    (cond_toList_mono _ hsr)) (cond_toList_mono _ (road_cat_max_buffer_mono 1 hrc)))
    (cond_toList_mono _ (road_cat_max_buffer_mono 2 hrc)))
    (cond_toList_mono _ (road_cat_max_buffer_mono 3 hrc))

/-! ### Claim theorems: setback resolution (C3, C9) -/

/-- C3 counterexample: the claim's formula — maximum over all sources, with
the force-to-zero exception applying only to party-wall-classified edges of
attached-housing programmes — disagrees with the code.  For programme
`TerraceType1` on a plot that is not flagged party-wall (so no edge is
classified party-wall), with side edge 1 and base setback 3, the code stores
setback 0 on edge 1 (the attached-programme branch also zeroes every side
edge), while the claim's formula yields 3. -/
theorem c3_party_wall_counterexample :
    (set_plot_edge_setbacks_prog ⟨2, [], [1], [], [], [], [], false, []⟩
        "TerraceType1" 3 [] none none none []).getD 1 0 = 0 ∧
      claim_resolved_setback ⟨2, [], [1], [], [], [], [], false, []⟩
        "TerraceType1" 3 [] none none none [] 1 = 3 ∧
      (0 : ℚ) ≠ 3 := by
  refine ⟨?_, ?_, by norm_num⟩
  · rw [set_plot_edge_setbacks_prog_getD _ _ _ _ _ _ _ _ (by norm_num)]
    rw [if_pos (by simp [partywall_edges_for_programme])]
  · rw [claim_resolved_setback]
    rw [if_neg (by simp)]
    simp [edge_setback_sources]

/-- C3 (amended): the per-programme body of `set_plot_edge_setbacks` stores,
on every in-range edge, the maximum of the development-control-plan base
setback and all applicable sources (urban-design-guideline values on the edge,
the street-block-plan setback of every class containing the edge, the
road-category buffer of every category containing it), except that the
programme's party-wall selection is forced to 0; that selection is the plot's
party-wall-classified edges (when the plot is flagged) for *every* programme
other than the detached ones, with all side edges added for the three
attached-housing programmes, and empty for the detached programmes — and the
resolved setback is monotone in every source on every edge. -/
theorem c3_setback_resolution_amended :
    (∀ (plot : PlotEdgesInfo) (programme : String) (b : ℚ) (udg : List (ℕ × ℚ))
        (sf ss sr : Option ℚ) (rc : List (ℕ × ℚ)) (e : ℕ),
        e < plot.num_of_edges →
        (set_plot_edge_setbacks_prog plot programme b udg sf ss sr rc).getD e 0 =
          if e ∈ partywall_edges_for_programme plot programme then 0
          else (edge_setback_sources plot udg sf ss sr rc e).foldl max b) ∧
      (∀ plot : PlotEdgesInfo,
        partywall_edges_for_programme plot "Bungalow" = [] ∧
          partywall_edges_for_programme plot "GoodClassBungalow" = []) ∧
      (∀ (plot : PlotEdgesInfo) (programme : String),
        programme ∈ ["Semi-DetachedHouse", "TerraceType1", "TerraceType2"] →
        ∀ e : ℕ,
          ((plot.partywall = true ∧ e ∈ plot.partywall_edges) ∨ e ∈ plot.side_edges) →
          e ∈ partywall_edges_for_programme plot programme) ∧
      (∀ (plot : PlotEdgesInfo) (programme : String),
        programme ∉ ["Semi-DetachedHouse", "TerraceType1", "TerraceType2"] →
        programme ∉ ["Bungalow", "GoodClassBungalow"] →
        partywall_edges_for_programme plot programme =
          if plot.partywall then plot.partywall_edges else []) ∧
      (∀ (plot : PlotEdgesInfo) (programme : String) (b b2 : ℚ)
        (udg udg2 : List (ℕ × ℚ)) (sf sf2 ss ss2 sr sr2 : Option ℚ)
        (rc rc2 : List (ℕ × ℚ)) (e : ℕ),
        e < plot.num_of_edges → b ≤ b2 →
        List.Forall₂ (fun p q => p.1 = q.1 ∧ p.2 ≤ q.2) udg udg2 →
        OptionLE sf sf2 → OptionLE ss ss2 → OptionLE sr sr2 →
        List.Forall₂ (fun p q => p.1 = q.1 ∧ p.2 ≤ q.2) rc rc2 →
        (set_plot_edge_setbacks_prog plot programme b udg sf ss sr rc).getD e 0 ≤
          (set_plot_edge_setbacks_prog plot programme b2 udg2 sf2 ss2 sr2 rc2).getD e 0) := by
  refine ⟨?_, ?_, ?_, ?_, ?_⟩
  · intro plot programme b udg sf ss sr rc e he
    exact set_plot_edge_setbacks_prog_getD plot programme b udg sf ss sr rc he
  · intro plot
    constructor <;> simp [partywall_edges_for_programme]
  · intro plot programme hmem e hcase
    unfold partywall_edges_for_programme
    rw [if_pos hmem]
    rw [List.mem_dedup, List.mem_append]
    rcases hcase with ⟨hflag, hpw⟩ | hside
    · left
      rw [hflag, if_pos rfl]
      exact hpw
    · right
      exact hside
  · intro plot programme h1 h2
    unfold partywall_edges_for_programme
    rw [if_neg h1, if_neg h2]
  · intro plot programme b b2 udg udg2 sf sf2 ss ss2 sr sr2 rc rc2 e he hb
      hudg hsf hss hsr hrc
    rw [set_plot_edge_setbacks_prog_getD plot programme b udg sf ss sr rc he,
      set_plot_edge_setbacks_prog_getD plot programme b2 udg2 sf2 ss2 sr2 rc2 he]
    by_cases hm : e ∈ partywall_edges_for_programme plot programme
    · rw [if_pos hm, if_pos hm]
    · rw [if_neg hm, if_neg hm]
      exact foldl_max_mono
        (edge_setback_sources_mono plot e hudg hsf hss hsr hrc) hb

/-- Witness for C3's amended theorem at a concrete input. -/
theorem c3_setback_resolution_amended_witness :
    (set_plot_edge_setbacks_prog ⟨2, [0], [], [], [], [], [], true, [1]⟩
        "Flat" 3 [(0, 5)] (some 4) none none [(1, 6)]).getD 0 0 =
      (if (0 : ℕ) ∈ partywall_edges_for_programme
          ⟨2, [0], [], [], [], [], [], true, [1]⟩ "Flat" then 0
        else (edge_setback_sources ⟨2, [0], [], [], [], [], [], true, [1]⟩
          [(0, 5)] (some 4) none none [(1, 6)] 0).foldl max 3) ∧
      (set_plot_edge_setbacks_prog ⟨2, [0], [], [], [], [], [], true, [1]⟩
          "Flat" 3 [(0, 5)] (some 4) none none [(1, 6)]).getD 0 0 ≤
        (set_plot_edge_setbacks_prog ⟨2, [0], [], [], [], [], [], true, [1]⟩
          "Flat" 4 [(0, 7)] (some 5) none none [(1, 6)]).getD 0 0 :=
  ⟨c3_setback_resolution_amended.1 _ "Flat" 3 [(0, 5)] (some 4) none none
      [(1, 6)] 0 (by norm_num),
    c3_setback_resolution_amended.2.2.2.2 _ "Flat" 3 4 [(0, 5)] [(0, 7)]
      (some 4) (some 5) none none none none [(1, 6)] [(1, 6)] 0 (by norm_num)
      (by norm_num)
      (List.Forall₂.cons ⟨rfl, by norm_num⟩ List.Forall₂.nil)
      (by norm_num [OptionLE]) trivial trivial
      (List.Forall₂.cons ⟨rfl, le_rfl⟩ List.Forall₂.nil)⟩

/-- C9: the stored edge-setback vector produced for a programme has length
exactly the number of the plot's boundary edges (each update is an in-place
index assignment, the vector is created as one base value per edge). -/
theorem c9_setback_vector_length (plot : PlotEdgesInfo) (programme : String)
    (b : ℚ) (udg : List (ℕ × ℚ)) (sf ss sr : Option ℚ) (rc : List (ℕ × ℚ)) :
    (set_plot_edge_setbacks_prog plot programme b udg sf ss sr rc).length =
      plot.num_of_edges := by
  unfold set_plot_edge_setbacks_prog
  rw [length_set_zero_fold, length_apply_road, length_apply_road, length_apply_road,
    length_apply_sbp, length_apply_sbp, length_apply_sbp, length_apply_udg,
    List.length_replicate]

/-! ### Claim theorem: minimum-bounding-rectangle edge classes (C6) -/

/-- C6: for every plot with an assigned front edge, the classifier yields at
most one front and at most one rear index (both are single optional values),
the rear index — when assigned — differs from the front index, the side list
contains exactly the remaining rectangle edges (neither front nor rear), and
front, rear and side together cover all four rectangle edges. -/
theorem c6_edge_classes_partition (lengths : Fin 4 → ℚ)
    (inter : List (Fin 4 × ℚ × ℚ)) (f : Fin 4)
    (hf : (classify_min_rect_edges lengths inter).1 = some f) :
    ∃ sl, (classify_min_rect_edges lengths inter).2.2 = some sl ∧
      f ∉ sl ∧
      (∀ r, (classify_min_rect_edges lengths inter).2.1 = some r →
        r ≠ f ∧ r ∉ sl) ∧
      (∀ e : Fin 4, e = f ∨
        (classify_min_rect_edges lengths inter).2.1 = some e ∨ e ∈ sl) := by
  have h1 : (classify_min_rect_edges lengths inter).1 = select_front_edge inter := rfl
  have h2 : (classify_min_rect_edges lengths inter).2.1 =
      select_rear_edge lengths (select_front_edge inter) := rfl
  have h3 : (classify_min_rect_edges lengths inter).2.2 =
      select_side_edges (select_front_edge inter)
        (select_rear_edge lengths (select_front_edge inter)) := rfl
  rw [h1] at hf
  rw [hf] at h2 h3
  set R := select_rear_edge lengths (some f) with hR
  set sl := (List.finRange 4).filter
    (fun e => decide (some e ≠ some f ∧ some e ≠ R)) with hsl
  have hside : (classify_min_rect_edges lengths inter).2.2 = some sl := h3
  refine ⟨sl, hside, ?_, ?_, ?_⟩
  · intro hmem
    rw [hsl, List.mem_filter] at hmem
    exact (of_decide_eq_true hmem.2).1 rfl
  · intro r hr
    have hRr : R = some r := h2.symm.trans hr
    have hfind : (List.finRange 4).find? (fun o =>
        decide (some o ≠ some f ∧ lengths o = front_edge_length lengths (some f))) =
        some r := (hR.symm.trans hRr)
    have hpred : some r ≠ some f ∧ lengths r = front_edge_length lengths (some f) := by
      have hpr := List.find?_some hfind
      simpa using hpr
    constructor
    · exact fun h => hpred.1 (congrArg some h)
    · intro hmem
      rw [hsl, List.mem_filter] at hmem
      exact (of_decide_eq_true hmem.2).2 hRr.symm
  · intro e
    by_cases hef : e = f
    · exact Or.inl hef
    · by_cases her : R = some e
      · exact Or.inr (Or.inl (h2.trans her))
      · refine Or.inr (Or.inr ?_)
        rw [hsl, List.mem_filter]
        refine ⟨List.mem_finRange e, decide_eq_true ⟨?_, ?_⟩⟩
        · exact fun h => hef (Option.some_injective _ h)
        · exact fun h => her h.symm

/-- Witness for C6 at a concrete input with the hypothesis discharged: a plot
whose edge 0 has the single road intersection. -/
theorem c6_edge_classes_partition_witness :
    ∃ sl, (classify_min_rect_edges (fun _ => (1 : ℚ)) [(0, 5, 1)]).2.2 = some sl ∧
      (0 : Fin 4) ∉ sl ∧
      (∀ r, (classify_min_rect_edges (fun _ => (1 : ℚ)) [(0, 5, 1)]).2.1 = some r →
        r ≠ 0 ∧ r ∉ sl) ∧
      (∀ e : Fin 4, e = 0 ∨
        (classify_min_rect_edges (fun _ => (1 : ℚ)) [(0, 5, 1)]).2.1 = some e ∨
        e ∈ sl) :=
  c6_edge_classes_partition (fun _ => 1) [(0, 5, 1)] 0 rfl

/-! ### Claim theorems: neighbour relation (C7) -/

/-- The buffered self-intersection of a well-formed rectangle is the rectangle
itself, so its area is the plot's area. -/
theorem inter_area_buffer_self (r : Rect) (hx : r.x1 ≤ r.x2) (hy : r.y1 ≤ r.y2) :
    inter_area (r.buffer 2) r = r.area := by
  unfold inter_area Rect.buffer Rect.area
  have h1 : min (r.x2 + 2) r.x2 = r.x2 := min_eq_right (by linarith)
  have h2 : max (r.x1 - 2) r.x1 = r.x1 := max_eq_right (by linarith)
  have h3 : min (r.y2 + 2) r.y2 = r.y2 := min_eq_right (by linarith)
  have h4 : max (r.y1 - 2) r.y1 = r.y1 := max_eq_right (by linarith)
  simp only
  rw [h1, h2, h3, h4, max_eq_right (by linarith : (0 : ℚ) ≤ r.x2 - r.x1),
    max_eq_right (by linarith : (0 : ℚ) ≤ r.y2 - r.y1)]

/-- Membership characterisation of the raw neighbour-link list. -/
theorem mem_get_neighbor_links (plots : List (ℕ × Rect)) (i j : ℕ) :
    (i, j) ∈ get_neighbor_links plots ↔
      ∃ p ∈ plots, ∃ q ∈ plots, p.1 = i ∧ q.1 = j ∧
        1 < inter_area (p.2.buffer 2) q.2 := by
  unfold get_neighbor_links
  rw [List.mem_flatten]
  constructor
  · rintro ⟨l, hl, hmem⟩
    rw [List.mem_map] at hl
    obtain ⟨p, hp, rfl⟩ := hl
    rw [List.mem_filterMap] at hmem
    obtain ⟨q, hq, hsome⟩ := hmem
    by_cases hc : 1 < inter_area (p.2.buffer 2) q.2
    · rw [if_pos hc] at hsome
      have h1 : p.1 = i := congrArg Prod.fst (Option.some_injective _ hsome)
      have h2 : q.1 = j := congrArg Prod.snd (Option.some_injective _ hsome)
      exact ⟨p, hp, q, hq, h1, h2, hc⟩
    · rw [if_neg hc] at hsome
      exact Option.noConfusion hsome
  · rintro ⟨p, hp, q, hq, hi, hj, hc⟩
    subst hi
    subst hj
    exact ⟨_, List.mem_map.mpr ⟨p, hp, rfl⟩,
      List.mem_filterMap.mpr ⟨q, hq, if_pos hc⟩⟩

/-- C7 counterexample: for the two-plot set
`P = [0,100]×[0,10]` (area 1000) and `Q = [30,31]×[11.2,76.2]` (area 65), the
link list produced by `get_neighbor_links` contains the self-pair `(Q, Q)`
(the overlay is not self-excluding), and contains `(Q, P)` but not `(P, Q)`
(the buffered-intersection test is directional), so the relation is neither
irreflexive nor symmetric as the claim states. -/
theorem c7_neighbor_relation_counterexample :
    ((1, 1) ∈ get_neighbor_links
        [(0, ⟨0, 0, 100, 10⟩), (1, ⟨30, 56/5, 31, 381/5⟩)]) ∧
      ((1, 0) ∈ get_neighbor_links
        [(0, ⟨0, 0, 100, 10⟩), (1, ⟨30, 56/5, 31, 381/5⟩)]) ∧
      ¬ ((0, 1) ∈ get_neighbor_links
        [(0, ⟨0, 0, 100, 10⟩), (1, ⟨30, 56/5, 31, 381/5⟩)]) := by
  have hQQ : (1 : ℚ) < inter_area
      (Rect.buffer ⟨30, 56/5, 31, 381/5⟩ 2) ⟨30, 56/5, 31, 381/5⟩ := by
    norm_num [inter_area, Rect.buffer, min_def, max_def]
  have hQP : (1 : ℚ) < inter_area
      (Rect.buffer ⟨30, 56/5, 31, 381/5⟩ 2) ⟨0, 0, 100, 10⟩ := by
    norm_num [inter_area, Rect.buffer, min_def, max_def]
  have hPQ : ¬ ((1 : ℚ) < inter_area
      (Rect.buffer ⟨0, 0, 100, 10⟩ 2) ⟨30, 56/5, 31, 381/5⟩) := by
    norm_num [inter_area, Rect.buffer, min_def, max_def]
  refine ⟨?_, ?_, ?_⟩
  · rw [mem_get_neighbor_links]
    exact ⟨(1, ⟨30, 56/5, 31, 381/5⟩), by simp, (1, ⟨30, 56/5, 31, 381/5⟩), by simp,
      rfl, rfl, hQQ⟩
  · rw [mem_get_neighbor_links]
    exact ⟨(1, ⟨30, 56/5, 31, 381/5⟩), by simp, (0, ⟨0, 0, 100, 10⟩), by simp,
      rfl, rfl, hQP⟩
  · rw [mem_get_neighbor_links]
    rintro ⟨p, hp, q, hq, hi, hj, hc⟩
    have hpP : p = (0, ⟨0, 0, 100, 10⟩) := by
      rcases List.mem_cons.mp hp with h | h
      · exact h
      · exfalso
        have : p = ((1 : ℕ), (⟨30, 56/5, 31, 381/5⟩ : Rect)) := by simpa using h
        rw [this] at hi
        exact absurd hi (by norm_num)
    have hqQ : q = (1, ⟨30, 56/5, 31, 381/5⟩) := by
      rcases List.mem_cons.mp hq with h | h
      · exfalso
        rw [h] at hj
        exact absurd hj (by norm_num)
      · simpa using h
    rw [hpP, hqQ] at hc
    exact hPQ hc

/-- C7 (amended): the raw neighbour-link list contains `(i, j)` exactly when
a plot with identifier `i`, buffered outward by 2, intersects a plot with
identifier `j` in area greater than 1; in particular it contains every
well-formed plot of area above 1 as its own neighbour, and the relation is
directional; self-pairs are only removed downstream, when
`create_neighbor_triples` serialises the links, so the serialised relation
never contains a plot as its own neighbour. -/
theorem c7_neighbor_relation_amended :
    (∀ (plots : List (ℕ × Rect)) (i j : ℕ),
        (i, j) ∈ get_neighbor_links plots ↔
          ∃ p ∈ plots, ∃ q ∈ plots, p.1 = i ∧ q.1 = j ∧
            1 < inter_area (p.2.buffer 2) q.2) ∧
      (∀ (plots : List (ℕ × Rect)) (i : ℕ) (r : Rect), (i, r) ∈ plots →
        r.x1 ≤ r.x2 → r.y1 ≤ r.y2 → 1 < r.area →
        (i, i) ∈ get_neighbor_links plots) ∧
      (∀ (links : List (ℕ × ℕ)) (i : ℕ), (i, i) ∉ create_neighbor_triples links) := by
  refine ⟨mem_get_neighbor_links, ?_, ?_⟩
  · intro plots i r hmem hx hy harea
    rw [mem_get_neighbor_links]
    refine ⟨(i, r), hmem, (i, r), hmem, rfl, rfl, ?_⟩
    rw [inter_area_buffer_self r hx hy]
    exact harea
  · intro links i hmem
    unfold create_neighbor_triples at hmem
    rw [List.mem_filter] at hmem
    exact (of_decide_eq_true hmem.2) rfl

/-- Witness for C7's amended theorem at a concrete input. -/
theorem c7_neighbor_relation_amended_witness :
    ((0, 0) ∈ get_neighbor_links [(0, ⟨0, 0, 10, 10⟩)] ↔
      ∃ p ∈ [((0 : ℕ), (⟨0, 0, 10, 10⟩ : Rect))], ∃ q ∈ [((0 : ℕ), (⟨0, 0, 10, 10⟩ : Rect))],
        p.1 = 0 ∧ q.1 = 0 ∧ 1 < inter_area (p.2.buffer 2) q.2) ∧
      (0, 0) ∈ get_neighbor_links [(0, ⟨0, 0, 10, 10⟩)] :=
  ⟨c7_neighbor_relation_amended.1 [(0, ⟨0, 0, 10, 10⟩)] 0 0,
    c7_neighbor_relation_amended.2.1 [(0, ⟨0, 0, 10, 10⟩)] 0 ⟨0, 0, 10, 10⟩
      (by simp) (by norm_num) (by norm_num) (by norm_num [Rect.area])⟩

/-! ### Claim theorem: setback area of a plot (C8) -/

theorem edge_buffer_mono (a b : Pt) {s s2 : ℝ} (h : s ≤ s2) :
    edge_buffer a b s ⊆ edge_buffer a b s2 := by
  rintro x ⟨t, u, ht0, ht1, hu0, hus, hx⟩
  exact ⟨t, u, ht0, ht1, hu0, le_trans hus h, hx⟩

theorem mem_union_list_cons (s : Set Pt) (L : List (Set Pt)) (x : Pt) :
    x ∈ union_list (s :: L) ↔ x ∈ s ∨ x ∈ union_list L := by
  unfold union_list
  constructor
  · rintro ⟨t, ht, hx⟩
    rcases List.mem_cons.mp ht with h | h
    · exact Or.inl (h ▸ hx)
    · exact Or.inr ⟨t, h, hx⟩
  · rintro (hx | ⟨t, ht, hx⟩)
    · exact ⟨s, List.mem_cons.mpr (Or.inl rfl), hx⟩
    · exact ⟨t, List.mem_cons.mpr (Or.inr ht), hx⟩

theorem union_buffers_mono :
    ∀ (edges : List (Pt × Pt)) {sbs sbs2 : List ℝ},
      List.Forall₂ (· ≤ ·) sbs sbs2 →
      union_list (((edges.zip sbs).filter (fun p => decide (0 < p.2))).map
        (fun p => edge_buffer p.1.1 p.1.2 p.2)) ⊆
      union_list (((edges.zip sbs2).filter (fun p => decide (0 < p.2))).map
        (fun p => edge_buffer p.1.1 p.1.2 p.2)) := by
  intro edges sbs sbs2 h
  induction h generalizing edges with
  | nil =>
    intro x hx
    exact hx
  | @cons s s2 rest rest2 hss _ ih =>
    cases edges with
    | nil =>
      intro x hx
      exact hx
    | cons e es =>
      rw [List.zip_cons_cons, List.zip_cons_cons, List.filter_cons, List.filter_cons]
      by_cases hs : (0 : ℝ) < s
      · have hs2 : (0 : ℝ) < s2 := lt_of_lt_of_le hs hss
        rw [if_pos (by simpa using hs), if_pos (by simpa using hs2),
          List.map_cons, List.map_cons]
        intro x hx
        rw [mem_union_list_cons] at hx ⊢
        rcases hx with hx | hx
        · exact Or.inl (edge_buffer_mono e.1 e.2 hss hx)
        · exact Or.inr (ih es hx)
      · rw [if_neg (by simpa using hs)]
        by_cases hs2 : (0 : ℝ) < s2
        · rw [if_pos (by simpa using hs2), List.map_cons]
          intro x hx
          rw [mem_union_list_cons]
          exact Or.inr (ih es hx)
        · rw [if_neg (by simpa using hs2)]
          exact ih es

/-- C8: subtracting the zero-setback buffers leaves the plot unchanged, and
the area of the remaining footprint is antitone in the edge setbacks: raising
any setbacks (in particular a single edge's setback) never increases the
remaining area. -/
theorem c8_setback_area_monotone :
    (∀ (edges : List (Pt × Pt)) (edge_setbacks : List ℝ) (plot_geom : Set Pt),
        (∀ s ∈ edge_setbacks, s = 0) →
        create_setback_area edges edge_setbacks plot_geom = plot_geom) ∧
      (∀ (edges : List (Pt × Pt)) (sbs sbs2 : List ℝ) (plot_geom : Set Pt),
        List.Forall₂ (· ≤ ·) sbs sbs2 →
        MeasureTheory.volume (create_setback_area edges sbs2 plot_geom) ≤
          MeasureTheory.volume (create_setback_area edges sbs plot_geom)) := by
  constructor
  · intro edges edge_setbacks plot_geom hzero
    unfold create_setback_area
    have hfil : (edges.zip edge_setbacks).filter (fun p => decide (0 < p.2)) = [] := by
      rw [List.filter_eq_nil_iff]
      intro p hp
      have hs : p.2 ∈ edge_setbacks := (List.of_mem_zip hp).2
      rw [hzero p.2 hs]
      simp
    rw [hfil]
    show plot_geom \ union_list [] = plot_geom
    have : union_list [] = (∅ : Set Pt) := by
      ext x
      simp [union_list]
    rw [this, Set.diff_empty]
  · intro edges sbs sbs2 plot_geom h
    apply MeasureTheory.measure_mono
    unfold create_setback_area
    exact Set.diff_subset_diff_right (union_buffers_mono edges h)

/-- Witness for C8 at a concrete input with the hypotheses discharged. -/
theorem c8_setback_area_monotone_witness :
    create_setback_area [(((0 : ℝ), (0 : ℝ)), ((1 : ℝ), (0 : ℝ)))] [0] Set.univ =
        Set.univ ∧
      MeasureTheory.volume
          (create_setback_area [(((0 : ℝ), (0 : ℝ)), ((1 : ℝ), (0 : ℝ)))] [2] Set.univ) ≤
        MeasureTheory.volume
          (create_setback_area [(((0 : ℝ), (0 : ℝ)), ((1 : ℝ), (0 : ℝ)))] [1] Set.univ) :=
  ⟨c8_setback_area_monotone.1 [((0, 0), (1, 0))] [0] Set.univ
      (by intro s hs; simpa using hs),
    c8_setback_area_monotone.2 [((0, 0), (1, 0))] [1] [2] Set.univ
      (List.Forall₂.cons (by norm_num) List.Forall₂.nil)⟩
